import Mathlib

/-
Verification development for the WAL watcher (Go package `client`).

The watcher discovers numbered segment files in a directory, reads each
segment (replay mode for sealed segments, tail mode for the live one),
decodes records and dispatches them to a consumer. The Go source is
shallowly embedded below: pure helpers become Lean functions, the
stateful loops become fuel-indexed recursions over explicit schedules of
ticker firings, and external collaborators (the record codec, the
consumer callbacks, `readSegment` outcomes, directory listings) become
explicit parameters.
-/

namespace Wal

/-- Go errors as the watcher observes them: `io.EOF`, any other base error
(abstracted by a numeric code), or an error wrapped with a message
(`errors.Wrapf` / `fmt.Errorf("..: %w", err)`), through which
`errors.Cause` unwraps. -/
inductive GoErr : Type where
  | eof : GoErr
  | other : Nat → GoErr
  | wrapped : String → GoErr → GoErr
  deriving DecidableEq

/-- `errors.Cause`: unwrap nested wrappers down to the root error. -/
def GoErr.cause : GoErr → GoErr
  | .wrapped _ e => e.cause
  | .eof => .eof
  | .other c => .other c

/-- `errors.Cause(err) == io.EOF` for an `error` value that may be nil
(`none`); `errors.Cause(nil)` is nil, which is not `io.EOF`. -/
def causeIsEOF : Option GoErr → Bool
  | some e => decide (e.cause = GoErr.eof)
  | none => false

/-- Numeric value of a decimal digit character; `none` for non-digits. -/
def digitVal (ch : Char) : Option Nat :=
  if '0' ≤ ch ∧ ch ≤ '9' then some (ch.toNat - '0'.toNat) else none

/-- Accumulate base-10 digits left to right; fails on any non-digit. -/
def parseDigits : List Char → Nat → Option Nat
  | [], acc => some acc
  | ch :: rest, acc =>
    match digitVal ch with
    | some d => parseDigits rest (acc * 10 + d)
    | none => none

/-- Largest value of Go's 64-bit `int`. -/
def maxInt64 : Nat := 9223372036854775807

/-- `strconv.Atoi`: an optional sign followed by one or more decimal
digits, subject to the 64-bit range check; every other string is an
error, modelled as `none`. -/
def goAtoi (s : String) : Option Int :=
  match s.toList with
  | [] => none
  | '+' :: rest =>
    if rest.isEmpty then none
    else (parseDigits rest 0).bind fun n =>
      if n ≤ maxInt64 then some (n : Int) else none
  | '-' :: rest =>
    if rest.isEmpty then none
    else (parseDigits rest 0).bind fun n =>
      if n ≤ maxInt64 + 1 then some (-(n : Int)) else none
  | cs =>
    (parseDigits cs 0).bind fun n =>
      if n ≤ maxInt64 then some (n : Int) else none

/-- `sort.Ints`: sort ascending. -/
def sortInts (refs : List Int) : List Int :=
  List.insertionSort (· ≤ ·) refs

/-- `err == nil` test on a Go `(value, error)` result modelled as
`Except`: `true` exactly on the `ok` branch. -/
def exceptIsOk {ε α : Type _} : Except ε α → Bool
  | Except.ok _ => true
  | Except.error _ => false

/-- The contiguity loop of `segments`: checks `refs[i]+1 == refs[i+1]`
for every adjacent pair of the sorted list. -/
def checkSequential : List Int → Bool
  | a :: b :: rest => if a + 1 = b then checkSequential (b :: rest) else false
  | _ => true

/-- `WALWatcher.segments`: parse each directory entry name with
`strconv.Atoi`, skipping names that fail to parse, sort the ids
ascending, and fail when any adjacent pair of the sorted ids is not
successive. The directory listing is abstracted as the list of file
names. -/
def goSegments (files : List String) : Except String (List Int) :=
  let refs := files.filterMap goAtoi
  let sorted := sortInts refs
  if checkSequential sorted then Except.ok sorted
  else Except.error "segments are not sequential"

/-- `WALWatcher.firstAndLast`: `(-1, -1)` plus the error when `segments`
fails, `(-1, -1)` with no error when the listing has no parseable ids,
otherwise the first and last entries of the sorted id list. -/
def firstAndLast (files : List String) : (Int × Int) × Option String :=
  match goSegments files with
  | Except.error e => ((-1, -1), some e)
  | Except.ok [] => ((-1, -1), none)
  | Except.ok (r :: rs) =>
    ((r, (r :: rs).getLast (List.cons_ne_nil r rs)), none)

theorem checkSequential_iff (l : List Int) :
    checkSequential l = true ↔ List.Chain' (fun a b => a + 1 = b) l := by
  induction l with
  | nil => simp [checkSequential]
  | cons a t ih =>
    cases t with
    | nil => simp [checkSequential]
    | cons b rest =>
      by_cases h : a + 1 = b
      · simp [checkSequential, h, List.chain'_cons, ih]
      · simp [checkSequential, h, List.chain'_cons]

theorem sorted_cons_le {a : Int} {t : List Int}
    (hs : (a :: t).Sorted (fun x y => x ≤ y)) :
    ∀ x ∈ a :: t, a ≤ x := by
  intro x hx
  rcases List.mem_cons.mp hx with h | h
  · exact h ▸ le_refl a
  · exact (List.pairwise_cons.mp hs).1 x h

theorem sorted_le_getLast :
    ∀ {l : List Int} (h : l ≠ []), l.Sorted (fun x y => x ≤ y) →
      ∀ x ∈ l, x ≤ l.getLast h := by
  intro l
  induction l with
  | nil => intro h; exact absurd rfl h
  | cons a t ih =>
    intro h hs x hx
    cases t with
    | nil =>
      have hx' : x = a := by simpa using hx
      subst hx'
      simp [List.getLast]
    | cons b rest =>
      have hlast : (a :: b :: rest).getLast h
          = (b :: rest).getLast (List.cons_ne_nil b rest) := by
        simp [List.getLast_cons]
      rcases List.mem_cons.mp hx with rfl | hx'
      · have hmem := List.getLast_mem (List.cons_ne_nil b rest)
        have hle := (List.pairwise_cons.mp hs).1 _ hmem
        rw [hlast]; exact hle
      · have hs' : (b :: rest).Sorted (fun x y => x ≤ y) :=
          (List.pairwise_cons.mp hs).2
        rw [hlast]
        exact ih (List.cons_ne_nil b rest) hs' x hx'

/-- The error condition claim C7 states: some adjacent pair of the
sorted ids differs by more than 1. -/
def hasAdjacentGapGT1 : List Int → Bool
  | a :: b :: rest => if 1 < b - a then true else hasAdjacentGapGT1 (b :: rest)
  | _ => false

/-- Claim C7's exactness clause at a given directory listing: `segments`
fails exactly when two adjacent sorted ids differ by more than 1. -/
def claimC7ErrorExactness (files : List String) : Prop :=
  (exceptIsOk (goSegments files) = false) ↔
    hasAdjacentGapGT1 (sortInts (files.filterMap goAtoi)) = true

/-- C7 counterexample: the distinct file names "007" and "7" both parse
to id 7, so the sorted ids are [7, 7]; no adjacent pair differs by more
than 1, yet `segments` fails, because its check `refs[i]+1 == refs[i+1]`
also rejects duplicates. -/
theorem segments_gap_only_counterexample :
    ¬ claimC7ErrorExactness ["007", "7"] := by
  unfold claimC7ErrorExactness
  decide

/-- C7 (amended): `segments` silently ignores filenames that do not parse
as base-10 integers, returns the parseable ids sorted ascending, and
fails with the non-contiguity error exactly when some adjacent pair of
the sorted ids is not successive (differs by more than 1, or consists of
duplicate ids parsed from distinct names). -/
theorem segments_spec (files : List String) :
    (exceptIsOk (goSegments files) = false ↔
      ¬ List.Chain' (fun a b => a + 1 = b)
          (sortInts (files.filterMap goAtoi)))
    ∧ ∀ l, goSegments files = Except.ok l →
        l = sortInts (files.filterMap goAtoi)
          ∧ l.Sorted (fun x y => x ≤ y)
          ∧ List.Chain' (fun a b => a + 1 = b) l := by
  by_cases h : checkSequential (sortInts (files.filterMap goAtoi)) = true
  · have hgs : goSegments files
        = Except.ok (sortInts (files.filterMap goAtoi)) := by
      simp [goSegments, h]
    constructor
    · rw [hgs]
      have hch := (checkSequential_iff _).mp h
      simp [exceptIsOk, hch]
    · intro l hl
      rw [hgs] at hl
      cases hl
      exact ⟨rfl, List.sorted_insertionSort _ _, (checkSequential_iff _).mp h⟩
  · have hgs : goSegments files = Except.error "segments are not sequential" := by
      simp [goSegments, h]
    constructor
    · rw [hgs]
      have hnc : ¬ List.Chain' (fun a b => a + 1 = b)
          (sortInts (files.filterMap goAtoi)) :=
        fun hc => h ((checkSequential_iff _).mpr hc)
      simp [exceptIsOk, hnc]
    · intro l hl
      rw [hgs] at hl
      cases hl

theorem segments_spec_witness :
    goSegments ["2", "x", "1"] = Except.ok [1, 2]
    ∧ (([1, 2] : List Int) = sortInts ((["2", "x", "1"]).filterMap goAtoi)
        ∧ List.Sorted (fun x y => x ≤ y) ([1, 2] : List Int)
        ∧ List.Chain' (fun a b => a + 1 = b) ([1, 2] : List Int)) :=
  ⟨rfl, (segments_spec ["2", "x", "1"]).2 [1, 2] rfl⟩

/-- Claim C8 at a given directory listing: `(-1, -1)` with no error when
no file name parses, otherwise the minimum and maximum parsed ids. -/
def claimC8At (files : List String) : Prop :=
  if files.filterMap goAtoi = [] then
    firstAndLast files = ((-1, -1), none)
  else
    (firstAndLast files).2 = none
    ∧ (firstAndLast files).1.1 ∈ files.filterMap goAtoi
    ∧ (firstAndLast files).1.2 ∈ files.filterMap goAtoi
    ∧ ∀ x ∈ files.filterMap goAtoi,
        (firstAndLast files).1.1 ≤ x ∧ x ≤ (firstAndLast files).1.2

/-- C8 counterexample: the listing ["0", "2"] contains parseable segment
files with minimum 0 and maximum 2, but `firstAndLast` propagates the
non-contiguity error from `segments` and returns `(-1, -1)` with an
error instead of the minimum and maximum. -/
theorem firstAndLast_noncontiguous_counterexample :
    ¬ claimC8At ["0", "2"] := by
  unfold claimC8At
  decide

/-- C8 (amended): `firstAndLast` returns `(-1, -1)` with no error when
the directory contains no parseable segment files; when `segments` fails
(non-contiguous ids) it returns `(-1, -1)` together with that error; and
otherwise it returns the minimum and maximum segment ids present. -/
theorem firstAndLast_spec (files : List String) :
    (files.filterMap goAtoi = [] → firstAndLast files = ((-1, -1), none))
    ∧ (∀ e, goSegments files = Except.error e →
        firstAndLast files = ((-1, -1), some e))
    ∧ (files.filterMap goAtoi ≠ [] → exceptIsOk (goSegments files) = true →
        (firstAndLast files).2 = none
        ∧ (firstAndLast files).1.1 ∈ files.filterMap goAtoi
        ∧ (firstAndLast files).1.2 ∈ files.filterMap goAtoi
        ∧ ∀ x ∈ files.filterMap goAtoi,
            (firstAndLast files).1.1 ≤ x ∧ x ≤ (firstAndLast files).1.2) := by
  refine ⟨?_, ?_, ?_⟩
  · intro h
    have hgs : goSegments files = Except.ok [] := by
      simp [goSegments, h, sortInts, List.insertionSort, checkSequential]
    unfold firstAndLast
    rw [hgs]
  · intro e he
    unfold firstAndLast
    rw [he]
  · intro hne hok
    have hcheck : checkSequential (sortInts (files.filterMap goAtoi)) = true := by
      by_contra hc
      have hgs : goSegments files
          = Except.error "segments are not sequential" := by
        simp [goSegments, hc]
      rw [hgs] at hok
      simp [exceptIsOk] at hok
    cases hcons : sortInts (files.filterMap goAtoi) with
    | nil =>
      exfalso
      have hperm := List.perm_insertionSort
        (fun x y : Int => x ≤ y) (files.filterMap goAtoi)
      rw [show sortInts (files.filterMap goAtoi)
            = List.insertionSort (fun x y : Int => x ≤ y)
                (files.filterMap goAtoi) from rfl] at hcons
      rw [hcons] at hperm
      exact hne (hperm.symm.eq_nil)
    | cons r rs =>
      have hc' : checkSequential (r :: rs) = true := by
        rw [← hcons]; exact hcheck
      have hgs : goSegments files = Except.ok (r :: rs) := by
        simp [goSegments, hcons, hc']
      have hsorted : (r :: rs).Sorted (fun x y : Int => x ≤ y) := by
        have := List.sorted_insertionSort (fun x y : Int => x ≤ y)
          (files.filterMap goAtoi)
        rw [show List.insertionSort (fun x y : Int => x ≤ y)
              (files.filterMap goAtoi)
            = sortInts (files.filterMap goAtoi) from rfl, hcons] at this
        exact this
      have hperm : (r :: rs).Perm (files.filterMap goAtoi) := by
        have := List.perm_insertionSort (fun x y : Int => x ≤ y)
          (files.filterMap goAtoi)
        rw [show List.insertionSort (fun x y : Int => x ≤ y)
              (files.filterMap goAtoi)
            = sortInts (files.filterMap goAtoi) from rfl, hcons] at this
        exact this
      have hfl : firstAndLast files
          = ((r, (r :: rs).getLast (List.cons_ne_nil r rs)), none) := by
        unfold firstAndLast
        rw [hgs]
      refine ⟨by rw [hfl], ?_, ?_, ?_⟩
      · rw [hfl]
        exact hperm.mem_iff.mp (List.mem_cons_self r rs)
      · rw [hfl]
        exact hperm.mem_iff.mp (List.getLast_mem (List.cons_ne_nil r rs))
      · intro x hx
        have hxs : x ∈ r :: rs := hperm.mem_iff.mpr hx
        rw [hfl]
        exact ⟨sorted_cons_le hsorted x hxs,
          sorted_le_getLast (List.cons_ne_nil r rs) hsorted x hxs⟩

theorem firstAndLast_spec_witness :
    ((["5", "4", "junk"].filterMap goAtoi ≠ [])
      ∧ exceptIsOk (goSegments ["5", "4", "junk"]) = true)
    ∧ ((firstAndLast ["5", "4", "junk"]).2 = none
        ∧ (firstAndLast ["5", "4", "junk"]).1.1
            ∈ ["5", "4", "junk"].filterMap goAtoi
        ∧ (firstAndLast ["5", "4", "junk"]).1.2
            ∈ ["5", "4", "junk"].filterMap goAtoi
        ∧ ∀ x ∈ ["5", "4", "junk"].filterMap goAtoi,
            (firstAndLast ["5", "4", "junk"]).1.1 ≤ x
              ∧ x ≤ (firstAndLast ["5", "4", "junk"]).1.2) :=
  ⟨⟨by decide, by decide⟩,
    (firstAndLast_spec ["5", "4", "junk"]).2.2 (by decide) (by decide)⟩

/-- `record.RefSeries`: a series declaration, a stream reference paired
with an (abstracted) label set. -/
structure RefSeries where
  ref : Nat
  labels : Nat
  deriving DecidableEq

/-- `ingester.RefEntries`: a stream reference plus a batch of
(abstracted) timestamped entries. -/
structure RefEntries where
  ref : Nat
  entries : List Nat
  deriving DecidableEq

/-- The decoded WAL record as filled in by `ingester.DecodeWALRecord`:
series declarations (`rec.Series`) and entry batches
(`rec.RefEntries`). -/
structure DecodedRecord where
  series : List RefSeries
  refEntries : List RefEntries
  deriving DecidableEq

/-- One synchronous consumer callback performed by the dispatcher. -/
inductive DispatchEvent : Type where
  | series : RefSeries → DispatchEvent
  | entries : RefEntries → DispatchEvent
  deriving DecidableEq

/-- The consumer's error behaviour: the result of `ConsumeSeries` and
`ConsumeEntries` on each argument (`none` models a nil error). -/
structure ConsumerModel where
  seriesErr : RefSeries → Option GoErr
  entriesErr : RefEntries → Option GoErr

/-- The watcher metrics the dispatcher can touch. -/
structure WatcherMetrics where
  recordsRead : Nat
  recordDecodeFails : Nat
  deriving DecidableEq

/-- The first loop of `decodeAndDispatch`: call `ConsumeSeries` on every
series declaration in order, remembering the first non-nil error
(`if err != nil { if firstErr == nil { firstErr = err } }`). Returns
the calls made and the final `firstErr`. -/
def dispatchSeries (c : ConsumerModel) :
    List RefSeries → Option GoErr → List DispatchEvent × Option GoErr
  | [], firstErr => ([], firstErr)
  | s :: rest, firstErr =>
    let firstErr' :=
      match c.seriesErr s, firstErr with
      | some e, none => some e
      | _, _ => firstErr
    let next := dispatchSeries c rest firstErr'
    (DispatchEvent.series s :: next.1, next.2)

/-- The second loop of `decodeAndDispatch`: call `ConsumeEntries` on
every entry batch in order
(`if err := ...; err != nil && firstErr == nil { firstErr = err }`). -/
def dispatchEntries (c : ConsumerModel) :
    List RefEntries → Option GoErr → List DispatchEvent × Option GoErr
  | [], firstErr => ([], firstErr)
  | en :: rest, firstErr =>
    let firstErr' :=
      match c.entriesErr en, firstErr with
      | some e, none => some e
      | _, _ => firstErr
    let next := dispatchEntries c rest firstErr'
    (DispatchEvent.entries en :: next.1, next.2)

/-- `decodeAndDispatch`: take a `DecodedRecord` from `recordPool`
(`GetRecord`; the source never calls `PutRecord`, so the pool's
outstanding-record count, threaded through explicitly as `pool`, only
grows), decode the raw bytes, and on success dispatch all series
declarations then all entry batches, returning the first consumer
error. `decode` abstracts the external `ingester.DecodeWALRecord`;
record bytes are abstracted as `List Nat`. Result: the consumer calls
made, the returned error, the metrics, and the outstanding pool
count. -/
def decodeAndDispatch (decode : List Nat → Except GoErr DecodedRecord)
    (c : ConsumerModel) (m : WatcherMetrics) (pool : Nat) (b : List Nat) :
    List DispatchEvent × Option GoErr × WatcherMetrics × Nat :=
  let pool' := pool + 1
  match decode b with
  | Except.error e =>
    ([], some e, { m with recordDecodeFails := m.recordDecodeFails + 1 }, pool')
  | Except.ok rec =>
    let sres := dispatchSeries c rec.series none
    let eres := dispatchEntries c rec.refEntries sres.2
    (sres.1 ++ eres.1, eres.2, m, pool')

theorem head?_toList_append {α : Type _} (l₁ l₂ : List α) :
    (l₁.head?.toList ++ l₂).head? = (l₁ ++ l₂).head? := by
  cases l₁ <;> simp

theorem dispatchSeries_events (c : ConsumerModel) (l : List RefSeries)
    (fe : Option GoErr) :
    (dispatchSeries c l fe).1 = l.map DispatchEvent.series
    ∧ (dispatchSeries c l fe).2
        = (fe.toList ++ l.filterMap c.seriesErr).head? := by
  induction l generalizing fe with
  | nil => cases fe <;> simp [dispatchSeries]
  | cons s rest ih =>
    cases fe with
    | some e =>
      cases hs : c.seriesErr s <;>
        simp [dispatchSeries, hs, (ih (some e)).1, (ih (some e)).2,
          List.filterMap_cons]
    | none =>
      cases hs : c.seriesErr s with
      | none =>
        simp [dispatchSeries, hs, (ih none).1, (ih none).2,
          List.filterMap_cons]
      | some e =>
        simp [dispatchSeries, hs, (ih (some e)).1, (ih (some e)).2,
          List.filterMap_cons]

theorem dispatchEntries_events (c : ConsumerModel) (l : List RefEntries)
    (fe : Option GoErr) :
    (dispatchEntries c l fe).1 = l.map DispatchEvent.entries
    ∧ (dispatchEntries c l fe).2
        = (fe.toList ++ l.filterMap c.entriesErr).head? := by
  induction l generalizing fe with
  | nil => cases fe <;> simp [dispatchEntries]
  | cons en rest ih =>
    cases fe with
    | some e =>
      cases hs : c.entriesErr en <;>
        simp [dispatchEntries, hs, (ih (some e)).1, (ih (some e)).2,
          List.filterMap_cons]
    | none =>
      cases hs : c.entriesErr en with
      | none =>
        simp [dispatchEntries, hs, (ih none).1, (ih none).2,
          List.filterMap_cons]
      | some e =>
        simp [dispatchEntries, hs, (ih (some e)).1, (ih (some e)).2,
          List.filterMap_cons]

/-- C1: for every record whose decode succeeds, the dispatcher's calls
are exactly all `ConsumeSeries` calls in record order followed by all
`ConsumeEntries` calls in record order: every series declaration is
consumed before any entry batch of the same record. -/
theorem decodeAndDispatch_order
    (decode : List Nat → Except GoErr DecodedRecord) (c : ConsumerModel)
    (m : WatcherMetrics) (pool : Nat) (b : List Nat) (rec : DecodedRecord)
    (h : decode b = Except.ok rec) :
    (decodeAndDispatch decode c m pool b).1
      = rec.series.map DispatchEvent.series
        ++ rec.refEntries.map DispatchEvent.entries := by
  unfold decodeAndDispatch
  rw [h]
  simp [(dispatchSeries_events c rec.series none).1,
    (dispatchEntries_events c rec.refEntries _).1]

theorem decodeAndDispatch_order_witness :
    (fun _ => Except.ok (⟨[⟨1, 0⟩], [⟨1, [42]⟩]⟩ : DecodedRecord)
        : List Nat → Except GoErr DecodedRecord) [0]
      = Except.ok (⟨[⟨1, 0⟩], [⟨1, [42]⟩]⟩ : DecodedRecord)
    ∧ (decodeAndDispatch
        (fun _ => Except.ok (⟨[⟨1, 0⟩], [⟨1, [42]⟩]⟩ : DecodedRecord))
        ⟨fun _ => none, fun _ => none⟩ ⟨0, 0⟩ 0 [0]).1
      = ([⟨1, 0⟩] : List RefSeries).map DispatchEvent.series
        ++ ([⟨1, [42]⟩] : List RefEntries).map DispatchEvent.entries :=
  ⟨rfl, decodeAndDispatch_order _ _ _ _ _ _ rfl⟩

/-- C5: for every record whose decode succeeds, even when consumer
callbacks fail, every series declaration and every entry batch of the
record is still dispatched, and the returned error is the first error
that occurred in dispatch order (series errors in order, then entry
errors in order). -/
theorem decodeAndDispatch_first_error
    (decode : List Nat → Except GoErr DecodedRecord) (c : ConsumerModel)
    (m : WatcherMetrics) (pool : Nat) (b : List Nat) (rec : DecodedRecord)
    (h : decode b = Except.ok rec) :
    (decodeAndDispatch decode c m pool b).1
      = rec.series.map DispatchEvent.series
        ++ rec.refEntries.map DispatchEvent.entries
    ∧ (decodeAndDispatch decode c m pool b).2.1
      = (rec.series.filterMap c.seriesErr
          ++ rec.refEntries.filterMap c.entriesErr).head? := by
  constructor
  · exact decodeAndDispatch_order decode c m pool b rec h
  · unfold decodeAndDispatch
    rw [h]
    have hs := (dispatchSeries_events c rec.series none).2
    have he := (dispatchEntries_events c rec.refEntries
      (dispatchSeries c rec.series none).2).2
    simp only []
    rw [he, hs]
    simp only [Option.toList_none, List.nil_append]
    exact head?_toList_append _ _

theorem decodeAndDispatch_first_error_witness :
    (fun _ => Except.ok
        (⟨[⟨1, 0⟩, ⟨2, 0⟩], [⟨1, [7]⟩]⟩ : DecodedRecord)
        : List Nat → Except GoErr DecodedRecord) [0]
      = Except.ok (⟨[⟨1, 0⟩, ⟨2, 0⟩], [⟨1, [7]⟩]⟩ : DecodedRecord)
    ∧ ((decodeAndDispatch
        (fun _ => Except.ok
          (⟨[⟨1, 0⟩, ⟨2, 0⟩], [⟨1, [7]⟩]⟩ : DecodedRecord))
        ⟨fun s => if s.ref = 1 then some (GoErr.other 5) else none,
          fun _ => some (GoErr.other 6)⟩ ⟨0, 0⟩ 0 [0]).1
      = ([⟨1, 0⟩, ⟨2, 0⟩] : List RefSeries).map DispatchEvent.series
        ++ ([⟨1, [7]⟩] : List RefEntries).map DispatchEvent.entries
    ∧ (decodeAndDispatch
        (fun _ => Except.ok
          (⟨[⟨1, 0⟩, ⟨2, 0⟩], [⟨1, [7]⟩]⟩ : DecodedRecord))
        ⟨fun s => if s.ref = 1 then some (GoErr.other 5) else none,
          fun _ => some (GoErr.other 6)⟩ ⟨0, 0⟩ 0 [0]).2.1
      = (([⟨1, 0⟩, ⟨2, 0⟩] : List RefSeries).filterMap
          (fun s => if s.ref = 1 then some (GoErr.other 5) else none)
        ++ ([⟨1, [7]⟩] : List RefEntries).filterMap
          (fun _ => some (GoErr.other 6))).head?) :=
  ⟨rfl, decodeAndDispatch_first_error
    (fun _ => Except.ok (⟨[⟨1, 0⟩, ⟨2, 0⟩], [⟨1, [7]⟩]⟩ : DecodedRecord))
    ⟨fun s => if s.ref = 1 then some (GoErr.other 5) else none,
      fun _ => some (GoErr.other 6)⟩ ⟨0, 0⟩ 0 [0]
    ⟨[⟨1, 0⟩, ⟨2, 0⟩], [⟨1, [7]⟩]⟩ rfl⟩

/-- C6: for every record whose decode fails, `decodeAndDispatch`
increments `record_decode_fails` exactly once, returns the decode error,
and performs no consumer callback at all. -/
theorem decodeAndDispatch_decode_fail
    (decode : List Nat → Except GoErr DecodedRecord) (c : ConsumerModel)
    (m : WatcherMetrics) (pool : Nat) (b : List Nat) (e : GoErr)
    (h : decode b = Except.error e) :
    decodeAndDispatch decode c m pool b
      = ([], some e,
          { m with recordDecodeFails := m.recordDecodeFails + 1 },
          pool + 1) := by
  unfold decodeAndDispatch
  rw [h]

theorem decodeAndDispatch_decode_fail_witness :
    (fun _ => Except.error (GoErr.other 9)
        : List Nat → Except GoErr DecodedRecord) [0]
      = Except.error (GoErr.other 9)
    ∧ decodeAndDispatch (fun _ => Except.error (GoErr.other 9))
        ⟨fun _ => none, fun _ => none⟩ ⟨3, 4⟩ 0 [0]
      = ([], some (GoErr.other 9), { recordsRead := 3, recordDecodeFails := 5 }, 1) :=
  ⟨rfl, decodeAndDispatch_decode_fail _ _ _ _ _ _ rfl⟩

/-- C9 (evaluating the code at the failing inputs): on both return paths
of `decodeAndDispatch` — decode failure and successful dispatch — the
pooled `DecodedRecord` is still outstanding when the call returns: the
source calls `recordPool.GetRecord()` but never `PutRecord`, so each
call grows the pool's outstanding-record count from 0 to 1 instead of
leaving it unchanged. -/
theorem decodeAndDispatch_pool_never_freed :
    (decodeAndDispatch
        (fun _ => Except.ok (⟨[⟨1, 0⟩], [⟨1, [42]⟩]⟩ : DecodedRecord))
        ⟨fun _ => none, fun _ => none⟩ ⟨0, 0⟩ 0 [0]).2.2.2 = 1
    ∧ (decodeAndDispatch (fun _ => Except.error (GoErr.other 9))
        ⟨fun _ => none, fun _ => none⟩ ⟨0, 0⟩ 0 [0]).2.2.2 = 1 :=
  ⟨rfl, rfl⟩

/-- A go-kit log key/value pair emitted by the watcher's replay
warnings. -/
inductive LogField : Type where
  | segment : Int → LogField
  | errField : GoErr → LogField
  | readOffset : Int → LogField
  | fileSize : Int → LogField
  deriving DecidableEq

/-- One warning line: its message and its key/value fields. -/
structure LogLine where
  msg : String
  fields : List LogField
  deriving DecidableEq

/-- `logIgnoredErrorWhileReplaying`: a non-nil, non-EOF-caused error is
logged as ignored with fields (segment, err); otherwise, when the
reader's offset differs from the file size, a short-read warning with
fields (segment, read, size) is logged. -/
def logIgnoredErrorWhileReplaying (err : Option GoErr)
    (readerOffset size : Int) (segmentNum : Int) : List LogLine :=
  match err with
  | some e =>
    if e.cause ≠ GoErr.eof then
      [⟨"Ignoring error reading to end of segment, may have dropped data",
        [LogField.segment segmentNum, LogField.errField e]⟩]
    else if readerOffset ≠ size then
      [⟨"Expected to have read whole segment, may have dropped data",
        [LogField.segment segmentNum, LogField.readOffset readerOffset,
          LogField.fileSize size]⟩]
    else []
  | none =>
    if readerOffset ≠ size then
      [⟨"Expected to have read whole segment, may have dropped data",
        [LogField.segment segmentNum, LogField.readOffset readerOffset,
          LogField.fileSize size]⟩]
    else []

/-- A firing of one of the `select` cases in `watch`'s loop: the quit
channel, the segment-check ticker, or the read ticker. A stopped ticker
never fires, so in replay mode (tail == false, segment ticker stopped) a
realizable schedule contains no `segcheck` ticks. -/
inductive WatchTick : Type where
  | quit : WatchTick
  | segcheck : WatchTick
  | read : WatchTick
  deriving DecidableEq

/-- Outcomes of the external calls made during one `watch` invocation:
the result of the i-th `readSegment` call, the reader's offset after it,
and the last segment id (or error) from the i-th `firstAndLast` call
made on a segment-check tick. -/
structure WatchEnv where
  readRes : Nat → Option GoErr
  offsetAfter : Nat → Int
  lastSeg : Nat → Except GoErr Int

/-- The `for { select { ... } }` loop of `watch`, driven by a schedule
of tick firings; `r` and `s` count the `readSegment` and `firstAndLast`
calls made so far. The result is `none` when the schedule is exhausted
with the loop still running, and `some res` when `watch` returns with
result `res`; paired with the warning lines logged. -/
def watchLoop (env : WatchEnv) (segmentNum : Int) (size : Int)
    (tail : Bool) :
    List WatchTick → Nat → Nat → Option (Option GoErr) × List LogLine
  | [], _, _ => (none, [])
  | t :: rest, r, s =>
    match t with
    | WatchTick.quit => (some none, [])
    | WatchTick.segcheck =>
      match env.lastSeg s with
      | Except.error e =>
        (some (some (GoErr.wrapped "segments" e)), [])
      | Except.ok last =>
        if last ≤ segmentNum then
          watchLoop env segmentNum size tail rest r (s + 1)
        else
          let err := env.readRes r
          if !tail then
            (some none,
              logIgnoredErrorWhileReplaying err (env.offsetAfter r) size
                segmentNum)
          else if causeIsEOF err then (some none, [])
          else (some err, [])
    | WatchTick.read =>
      let err := env.readRes r
      if !tail then
        (some none,
          logIgnoredErrorWhileReplaying err (env.offsetAfter r) size
            segmentNum)
      else if causeIsEOF err then
        watchLoop env segmentNum size tail rest (r + 1) s
      else (some err, [])

/-- `watch(segmentNum, tail)`: open the segment (`openRes` abstracts
`wlog.OpenReadSegment`), in replay mode obtain the segment size up-front
(`sizeRes` abstracts `getSegmentSize`; in tail mode the size stays
`math.MaxInt64`), then run the select loop. -/
def watch (openRes : Option GoErr) (sizeRes : Except GoErr Int)
    (env : WatchEnv) (segmentNum : Int) (tail : Bool)
    (sched : List WatchTick) : Option (Option GoErr) × List LogLine :=
  match openRes with
  | some e => (some (some e), [])
  | none =>
    if tail then
      watchLoop env segmentNum ((maxInt64 : Nat) : Int) true sched 0 0
    else
      match sizeRes with
      | Except.error e =>
        (some (some (GoErr.wrapped "getSegmentSize" e)), [])
      | Except.ok size => watchLoop env segmentNum size false sched 0 0

/-- Claim C3's logging clause: a non-EOF replay error is logged as
ignored together with the reader's offset and the file size. -/
def claimC3IgnoredLogHasOffsetAndSize (err : GoErr)
    (offset size seg : Int) : Prop :=
  ∃ line ∈ logIgnoredErrorWhileReplaying (some err) offset size seg,
    line.msg = "Ignoring error reading to end of segment, may have dropped data"
    ∧ LogField.readOffset offset ∈ line.fields
    ∧ LogField.fileSize size ∈ line.fields

/-- C3 counterexample: replaying segment 2 whose file size is 10 with
the reader at offset 5, a non-EOF error from `readSegment` makes `watch`
return normally, but the ignored-error warning carries only the segment
number and the error — not the reader's offset and the file size, which
the claim says accompany it (they appear only in the separate short-read
warning). -/
theorem watch_replay_log_counterexample :
    watch none (Except.ok 10)
        ⟨fun _ => some (GoErr.other 7), fun _ => 5, fun _ => Except.ok 0⟩
        2 false [WatchTick.read]
      = (some none,
          [⟨"Ignoring error reading to end of segment, may have dropped data",
            [LogField.segment 2, LogField.errField (GoErr.other 7)]⟩])
    ∧ ¬ claimC3IgnoredLogHasOffsetAndSize (GoErr.other 7) 5 10 2 := by
  constructor
  · rfl
  · unfold claimC3IgnoredLogHasOffsetAndSize
    decide

/-- C3 (amended): with tail == false (replay mode), once the segment is
open and sized, `watch` returns normally (no error) at the first read
tick regardless of the error returned by `readSegment`, including
non-EOF errors, which are not propagated; such a non-EOF error is logged
as ignored together with the segment number and the error itself. -/
theorem watch_replay_returns_after_first_read_tick
    (env : WatchEnv) (segmentNum size : Int) (rest : List WatchTick) :
    watch none (Except.ok size) env segmentNum false
        (WatchTick.read :: rest)
      = (some none,
          logIgnoredErrorWhileReplaying (env.readRes 0) (env.offsetAfter 0)
            size segmentNum)
    ∧ (∀ e, env.readRes 0 = some e → e.cause ≠ GoErr.eof →
        logIgnoredErrorWhileReplaying (env.readRes 0) (env.offsetAfter 0)
            size segmentNum
          = [⟨"Ignoring error reading to end of segment, may have dropped data",
              [LogField.segment segmentNum, LogField.errField e]⟩]) := by
  constructor
  · rfl
  · intro e he hne
    rw [he]
    simp [logIgnoredErrorWhileReplaying, hne]

theorem watch_replay_returns_witness :
    ((⟨fun _ => some (GoErr.other 7), fun _ => 5, fun _ => Except.ok 0⟩
        : WatchEnv).readRes 0 = some (GoErr.other 7)
      ∧ (GoErr.other 7).cause ≠ GoErr.eof)
    ∧ (watch none (Except.ok 10)
          ⟨fun _ => some (GoErr.other 7), fun _ => 5, fun _ => Except.ok 0⟩
          2 false [WatchTick.read]
        = (some none,
            logIgnoredErrorWhileReplaying (some (GoErr.other 7)) 5 10 2)
      ∧ logIgnoredErrorWhileReplaying (some (GoErr.other 7)) 5 10 2
        = [⟨"Ignoring error reading to end of segment, may have dropped data",
            [LogField.segment 2, LogField.errField (GoErr.other 7)]⟩]) :=
  ⟨⟨rfl, by decide⟩,
    ⟨(watch_replay_returns_after_first_read_tick
        ⟨fun _ => some (GoErr.other 7), fun _ => 5, fun _ => Except.ok 0⟩
        2 10 []).1,
      (watch_replay_returns_after_first_read_tick
        ⟨fun _ => some (GoErr.other 7), fun _ => 5, fun _ => Except.ok 0⟩
        2 10 []).2 (GoErr.other 7) rfl (by decide)⟩⟩

theorem watchLoop_reads_error_iff (env : WatchEnv) (segmentNum size : Int) :
    ∀ (k r s : Nat),
      (∃ e, (watchLoop env segmentNum size true
          (List.replicate k WatchTick.read) r s).1 = some (some e))
      ↔ ∃ i, i < k
          ∧ (∃ e, env.readRes (r + i) = some e ∧ e.cause ≠ GoErr.eof)
          ∧ ∀ j, j < i → causeIsEOF (env.readRes (r + j)) = true := by
  intro k
  induction k with
  | zero =>
    intro r s
    simp [watchLoop, List.replicate]
  | succ k ih =>
    intro r s
    rw [List.replicate_succ]
    cases hr : env.readRes r with
    | none =>
      have hloop : (watchLoop env segmentNum size true
          (WatchTick.read :: List.replicate k WatchTick.read) r s).1
          = some none := by
        simp [watchLoop, hr, causeIsEOF]
      rw [hloop]
      constructor
      · rintro ⟨e, he⟩
        cases he
      · rintro ⟨i, _, ⟨e, he, _⟩, hprev⟩
        cases i with
        | zero => rw [Nat.add_zero] at he; rw [hr] at he; cases he
        | succ i' =>
          have := hprev 0 (Nat.succ_pos i')
          rw [Nat.add_zero, hr] at this
          simp [causeIsEOF] at this
    | some e =>
      by_cases hc : e.cause = GoErr.eof
      · have heof : causeIsEOF (env.readRes r) = true := by
          simp [causeIsEOF, hr, hc]
        have hloop : watchLoop env segmentNum size true
            (WatchTick.read :: List.replicate k WatchTick.read) r s
            = watchLoop env segmentNum size true
                (List.replicate k WatchTick.read) (r + 1) s := by
          simp [watchLoop, heof]
        rw [hloop, ih (r + 1) s]
        constructor
        · rintro ⟨i, hik, hP, hprev⟩
          refine ⟨i + 1, by omega, ?_, ?_⟩
          · have : r + (i + 1) = r + 1 + i := by omega
            rw [this]; exact hP
          · intro j hj
            cases j with
            | zero => rw [Nat.add_zero]; exact heof
            | succ j' =>
              have : r + (j' + 1) = r + 1 + j' := by omega
              rw [this]
              exact hprev j' (by omega)
        · rintro ⟨i, hik, hP, hprev⟩
          cases i with
          | zero =>
            rcases hP with ⟨e', he', hce'⟩
            rw [Nat.add_zero, hr] at he'
            cases he'
            exact absurd hc hce'
          | succ i' =>
            refine ⟨i', by omega, ?_, ?_⟩
            · have : r + 1 + i' = r + (i' + 1) := by omega
              rw [this]; exact hP
            · intro j hj
              have : r + 1 + j = r + (j + 1) := by omega
              rw [this]
              exact hprev (j + 1) (by omega)
      · have hneof : causeIsEOF (some e) = false := by
          simp [causeIsEOF, hc]
        have hloop : (watchLoop env segmentNum size true
            (WatchTick.read :: List.replicate k WatchTick.read) r s).1
            = some (some e) := by
          simp [watchLoop, hr, hneof]
        rw [hloop]
        constructor
        · intro _
          exact ⟨0, Nat.succ_pos k, ⟨e, by rw [Nat.add_zero]; exact hr, hc⟩,
            fun j hj => absurd hj (Nat.not_lt_zero j)⟩
        · intro _
          exact ⟨e, rfl⟩

/-- C4: with tail == true, (a) an EOF-caused `readSegment` result at a
read tick leaves the loop running: `watch` does not return but proceeds
with the remaining schedule; (b) a non-EOF error at a read tick aborts
the watch call, which returns that error; (c) over any schedule of read
ticks, the watch call returns an error exactly when some `readSegment`
call yields a non-EOF (non-nil) error with every earlier call yielding
an EOF-caused one. -/
theorem watch_tail_read_errors (env : WatchEnv) (segmentNum size : Int) :
    (∀ (rest : List WatchTick) (r s : Nat),
      causeIsEOF (env.readRes r) = true →
      watchLoop env segmentNum size true (WatchTick.read :: rest) r s
        = watchLoop env segmentNum size true rest (r + 1) s)
    ∧ (∀ (rest : List WatchTick) (r s : Nat) (e : GoErr),
        env.readRes r = some e → e.cause ≠ GoErr.eof →
        watchLoop env segmentNum size true (WatchTick.read :: rest) r s
          = (some (some e), []))
    ∧ (∀ k : Nat,
        (∃ e, (watch none (Except.ok 0) env segmentNum true
            (List.replicate k WatchTick.read)).1 = some (some e))
        ↔ ∃ i, i < k
            ∧ (∃ e, env.readRes i = some e ∧ e.cause ≠ GoErr.eof)
            ∧ ∀ j, j < i → causeIsEOF (env.readRes j) = true) := by
  refine ⟨?_, ?_, ?_⟩
  · intro rest r s h
    simp [watchLoop, h]
  · intro rest r s e he hne
    have hneof : causeIsEOF (some e) = false := by
      simp [causeIsEOF, hne]
    simp [watchLoop, he, hneof]
  · intro k
    have h := watchLoop_reads_error_iff env segmentNum
      ((maxInt64 : Nat) : Int) k 0 0
    simp only [Nat.zero_add] at h
    exact h

theorem watch_tail_read_errors_witness :
    (causeIsEOF ((⟨fun i => if i = 0 then some GoErr.eof
          else some (GoErr.other 3), fun _ => 0, fun _ => Except.ok 0⟩
        : WatchEnv).readRes 0) = true
      ∧ watchLoop
          ⟨fun i => if i = 0 then some GoErr.eof else some (GoErr.other 3),
            fun _ => 0, fun _ => Except.ok 0⟩
          3 9 true [WatchTick.read] 0 0
        = watchLoop
            ⟨fun i => if i = 0 then some GoErr.eof else some (GoErr.other 3),
              fun _ => 0, fun _ => Except.ok 0⟩
            3 9 true [] 1 0)
    ∧ ((⟨fun i => if i = 0 then some GoErr.eof else some (GoErr.other 3),
          fun _ => 0, fun _ => Except.ok 0⟩ : WatchEnv).readRes 1
        = some (GoErr.other 3)
      ∧ (GoErr.other 3).cause ≠ GoErr.eof
      ∧ watchLoop
          ⟨fun i => if i = 0 then some GoErr.eof else some (GoErr.other 3),
            fun _ => 0, fun _ => Except.ok 0⟩
          3 9 true [WatchTick.read] 1 0
        = (some (some (GoErr.other 3)), [])) :=
  ⟨⟨by decide,
    (watch_tail_read_errors
      ⟨fun i => if i = 0 then some GoErr.eof else some (GoErr.other 3),
        fun _ => 0, fun _ => Except.ok 0⟩ 3 9).1 [] 0 0 (by decide)⟩,
    ⟨rfl, by decide,
      (watch_tail_read_errors
        ⟨fun i => if i = 0 then some GoErr.eof else some (GoErr.other 3),
          fun _ => 0, fun _ => Except.ok 0⟩ 3 9).2.1 [] 1 0
        (GoErr.other 3) rfl (by decide)⟩⟩

/-- An event observable by the consumer during `run`: a record of
segment `seg` dispatched while `watch(seg, _)` was draining that
segment (payloads abstracted by ids), or the `SegmentEnd(seg)`
callback. -/
inductive RunEvent : Type where
  | record : Int → Nat → RunEvent
  | segmentEnd : Int → RunEvent
  deriving DecidableEq

/-- The behaviour of `watch(seg, tail)` as observed from `run`: the
records it dispatches to the consumer, in order, and its returned
error. -/
structure WatchSpec where
  recs : Int → Bool → List Nat
  res : Int → Bool → Option GoErr

/-- The `for !isClosed(w.quit)` loop of `run`, with `fuel` the number of
iterations before the quit channel is observed closed. Each iteration
calls `watch(currentSegment, currentSegment >= lastSegment)`; on error
`run` returns it; when `currentSegment == MaxSegment` it returns nil
without `SegmentEnd`; otherwise it calls `SegmentEnd(currentSegment)`
and increments. Returns the consumer-event trace, run's result, and the
final value of `currentSegment`. -/
def runLoop (ws : WatchSpec) (maxSegment lastSegment : Int) :
    Nat → Int → List RunEvent × Option GoErr × Int
  | 0, cur => ([], none, cur)
  | fuel + 1, cur =>
    let tail := decide (lastSegment ≤ cur)
    let evs := (ws.recs cur tail).map (RunEvent.record cur)
    match ws.res cur tail with
    | some e => (evs, some e, cur)
    | none =>
      if cur = maxSegment then (evs, none, cur)
      else
        let next := runLoop ws maxSegment lastSegment fuel (cur + 1)
        (evs ++ RunEvent.segmentEnd cur :: next.1, next.2.1, next.2.2)

/-- `run`: obtain `(_, lastSegment)` from `firstAndLast` (abstracted as
`flRes`), fail wrapped when it fails, else start the loop at
`currentSegment := lastSegment`. The final `currentSegment` is `none`
when the loop was never entered. -/
def runW (ws : WatchSpec) (maxSegment : Int) (flRes : Except GoErr Int)
    (fuel : Nat) : List RunEvent × Option GoErr × Option Int :=
  match flRes with
  | Except.error e => ([], some (GoErr.wrapped "wal.Segments" e), none)
  | Except.ok lastSegment =>
    let res := runLoop ws maxSegment lastSegment fuel lastSegment
    (res.1, res.2.1, some res.2.2)

/-- Rank of a consumer event: all events of segment `n` sit strictly
between `SegmentEnd(n-1)` and anything of segment `n+1`. -/
def erank : RunEvent → Int
  | RunEvent.record n _ => 2 * n
  | RunEvent.segmentEnd n => 2 * n + 1

/-- The segment ids passed to `SegmentEnd`, in trace order. -/
def segEnds (t : List RunEvent) : List Int :=
  t.filterMap fun e =>
    match e with
    | RunEvent.segmentEnd n => some n
    | RunEvent.record _ _ => none

/-- The arithmetic progression c, c+1, ..., c+k-1. -/
def intRange (c : Int) : Nat → List Int
  | 0 => []
  | k + 1 => c :: intRange (c + 1) k

theorem segEnds_map_record (n : Int) (l : List Nat) :
    segEnds (l.map (RunEvent.record n)) = [] := by
  induction l with
  | nil => rfl
  | cons a t ih => simp [segEnds, List.filterMap_cons, ih]

theorem mem_intRange {c x : Int} : ∀ {k : Nat}, x ∈ intRange c k → c ≤ x := by
  intro k
  induction k generalizing c with
  | zero => intro h; cases h
  | succ k ih =>
    intro h
    rcases List.mem_cons.mp h with rfl | h'
    · exact le_refl x
    · have := ih h'
      omega

theorem intRange_pairwise_lt (c : Int) :
    ∀ k, (intRange c k).Pairwise (fun a b => a < b) := by
  intro k
  induction k generalizing c with
  | zero => exact List.Pairwise.nil
  | succ k ih =>
    refine List.pairwise_cons.mpr ⟨?_, ih (c := c + 1)⟩
    intro x hx
    have := mem_intRange hx
    omega

theorem pairwise_const_rank (n : Int) (l : List Nat) :
    (l.map (RunEvent.record n)).Pairwise (fun a b => erank a ≤ erank b) := by
  rw [List.pairwise_map]
  induction l with
  | nil => exact List.Pairwise.nil
  | cons a t ih =>
    exact List.pairwise_cons.mpr ⟨fun b _ => le_refl _, ih⟩

theorem runLoop_step_err (ws : WatchSpec) (ms ls : Int) (fuel : Nat)
    (cur : Int) (e : GoErr)
    (hres : ws.res cur (decide (ls ≤ cur)) = some e) :
    runLoop ws ms ls (fuel + 1) cur
      = ((ws.recs cur (decide (ls ≤ cur))).map (RunEvent.record cur),
          some e, cur) := by
  simp only [runLoop, hres]

theorem runLoop_step_stop (ws : WatchSpec) (ms ls : Int) (fuel : Nat)
    (hres : ws.res ms (decide (ls ≤ ms)) = none) :
    runLoop ws ms ls (fuel + 1) ms
      = ((ws.recs ms (decide (ls ≤ ms))).map (RunEvent.record ms),
          none, ms) := by
  simp [runLoop, hres]

theorem runLoop_step_cont (ws : WatchSpec) (ms ls : Int) (fuel : Nat)
    (cur : Int) (hres : ws.res cur (decide (ls ≤ cur)) = none)
    (hm : cur ≠ ms) :
    runLoop ws ms ls (fuel + 1) cur
      = ((ws.recs cur (decide (ls ≤ cur))).map (RunEvent.record cur)
            ++ RunEvent.segmentEnd cur :: (runLoop ws ms ls fuel (cur + 1)).1,
          (runLoop ws ms ls fuel (cur + 1)).2.1,
          (runLoop ws ms ls fuel (cur + 1)).2.2) := by
  simp only [runLoop, hres]
  rw [if_neg hm]

theorem segEnds_append (a b : List RunEvent) :
    segEnds (a ++ b) = segEnds a ++ segEnds b :=
  List.filterMap_append a b _

theorem segEnds_cons_end (n : Int) (t : List RunEvent) :
    segEnds (RunEvent.segmentEnd n :: t) = n :: segEnds t := by
  simp [segEnds, List.filterMap_cons]

theorem runLoop_rank (ws : WatchSpec) (ms ls : Int) :
    ∀ (fuel : Nat) (cur : Int),
      (∀ e ∈ (runLoop ws ms ls fuel cur).1, 2 * cur ≤ erank e)
      ∧ (runLoop ws ms ls fuel cur).1.Pairwise
          (fun a b => erank a ≤ erank b) := by
  intro fuel
  induction fuel with
  | zero => intro cur; simp [runLoop]
  | succ fuel ih =>
    intro cur
    cases hres : ws.res cur (decide (ls ≤ cur)) with
    | some e =>
      rw [runLoop_step_err ws ms ls fuel cur e hres]
      constructor
      · intro ev hev
        rcases List.mem_map.mp hev with ⟨p, _, rfl⟩
        simp [erank]
      · exact pairwise_const_rank cur _
    | none =>
      by_cases hm : cur = ms
      · rw [hm] at hres ⊢
        rw [runLoop_step_stop ws ms ls fuel hres]
        constructor
        · intro ev hev
          rcases List.mem_map.mp hev with ⟨p, _, rfl⟩
          simp [erank]
        · exact pairwise_const_rank ms _
      · rw [runLoop_step_cont ws ms ls fuel cur hres hm]
        have hbound := (ih (cur + 1)).1
        have hpw := (ih (cur + 1)).2
        constructor
        · intro ev hev
          rcases List.mem_append.mp hev with h | h
          · rcases List.mem_map.mp h with ⟨p, _, rfl⟩
            simp [erank]
          · rcases List.mem_cons.mp h with rfl | h'
            · have he : erank (RunEvent.segmentEnd cur) = 2 * cur + 1 := rfl
              omega
            · have hb := hbound ev h'
              omega
        · rw [List.pairwise_append]
          refine ⟨pairwise_const_rank cur _, ?_, ?_⟩
          · refine List.pairwise_cons.mpr ⟨?_, hpw⟩
            intro b hb
            have hbb := hbound b hb
            have he : erank (RunEvent.segmentEnd cur) = 2 * cur + 1 := rfl
            omega
          · intro a ha b hb
            rcases List.mem_map.mp ha with ⟨p, _, rfl⟩
            have hra : erank (RunEvent.record cur p) = 2 * cur := rfl
            rcases List.mem_cons.mp hb with rfl | hb'
            · have he : erank (RunEvent.segmentEnd cur) = 2 * cur + 1 := rfl
              omega
            · have hbb := hbound b hb'
              omega

theorem runLoop_segEnds (ws : WatchSpec) (ms ls : Int) :
    ∀ (fuel : Nat) (cur : Int),
      ∃ k, segEnds (runLoop ws ms ls fuel cur).1 = intRange cur k := by
  intro fuel
  induction fuel with
  | zero => intro cur; exact ⟨0, rfl⟩
  | succ fuel ih =>
    intro cur
    cases hres : ws.res cur (decide (ls ≤ cur)) with
    | some e =>
      refine ⟨0, ?_⟩
      rw [runLoop_step_err ws ms ls fuel cur e hres]
      exact segEnds_map_record cur _
    | none =>
      by_cases hm : cur = ms
      · rw [hm] at hres ⊢
        refine ⟨0, ?_⟩
        rw [runLoop_step_stop ws ms ls fuel hres]
        exact segEnds_map_record ms _
      · rcases ih (cur + 1) with ⟨k, hk⟩
        refine ⟨k + 1, ?_⟩
        rw [runLoop_step_cont ws ms ls fuel cur hres hm]
        show segEnds ((ws.recs cur (decide (ls ≤ cur))).map
            (RunEvent.record cur)
          ++ RunEvent.segmentEnd cur :: (runLoop ws ms ls fuel (cur + 1)).1)
          = intRange cur (k + 1)
        rw [segEnds_append, segEnds_map_record cur, segEnds_cons_end, hk]
        simp [intRange]

/-- C2: in every execution of the run loop, the consumer receives all
records of segment N before `SegmentEnd(N)`; `SegmentEnd(N)` happens
before any record of segment N+1; and the segment ids passed to
`SegmentEnd` are strictly increasing. -/
theorem run_segment_ordering (ws : WatchSpec) (maxSegment : Int)
    (flRes : Except GoErr Int) (fuel : Nat) :
    (segEnds (runW ws maxSegment flRes fuel).1).Pairwise (fun a b => a < b)
    ∧ (runW ws maxSegment flRes fuel).1.Pairwise
        (fun a b => erank a ≤ erank b)
    ∧ (∀ (N : Int) (p : Nat)
        (i j : Fin (runW ws maxSegment flRes fuel).1.length),
        (runW ws maxSegment flRes fuel).1.get i = RunEvent.record N p →
        (runW ws maxSegment flRes fuel).1.get j = RunEvent.segmentEnd N →
        i < j)
    ∧ (∀ (N : Int) (p : Nat)
        (i j : Fin (runW ws maxSegment flRes fuel).1.length),
        (runW ws maxSegment flRes fuel).1.get i = RunEvent.segmentEnd N →
        (runW ws maxSegment flRes fuel).1.get j
          = RunEvent.record (N + 1) p →
        i < j) := by
  have hpw : (runW ws maxSegment flRes fuel).1.Pairwise
      (fun a b => erank a ≤ erank b) := by
    cases flRes with
    | error e => exact List.Pairwise.nil
    | ok ls => exact (runLoop_rank ws maxSegment ls fuel ls).2
  have hse : (segEnds (runW ws maxSegment flRes fuel).1).Pairwise
      (fun a b => a < b) := by
    cases flRes with
    | error e => exact List.Pairwise.nil
    | ok ls =>
      rcases runLoop_segEnds ws maxSegment ls fuel ls with ⟨k, hk⟩
      have : segEnds (runW ws maxSegment (Except.ok ls) fuel).1
          = intRange ls k := hk
      rw [this]
      exact intRange_pairwise_lt ls k
  have hget := List.pairwise_iff_get.mp hpw
  refine ⟨hse, hpw, ?_, ?_⟩
  · intro N p i j hi hj
    rcases lt_trichotomy i j with h | h | h
    · exact h
    · exfalso
      rw [h, hj] at hi
      cases hi
    · exfalso
      have := hget j i h
      rw [hi, hj] at this
      simp only [erank] at this
      omega
  · intro N p i j hi hj
    rcases lt_trichotomy i j with h | h | h
    · exact h
    · exfalso
      rw [h, hj] at hi
      cases hi
    · exfalso
      have := hget j i h
      rw [hi, hj] at this
      simp only [erank] at this
      omega

theorem run_segment_ordering_witness :
    ((runW ⟨fun _ _ => [0], fun _ _ => none⟩ (-1) (Except.ok 0) 2).1.get
        ⟨0, by decide⟩ = RunEvent.record 0 0
      ∧ (runW ⟨fun _ _ => [0], fun _ _ => none⟩ (-1) (Except.ok 0) 2).1.get
        ⟨1, by decide⟩ = RunEvent.segmentEnd 0)
    ∧ (⟨0, by decide⟩
        : Fin (runW ⟨fun _ _ => [0], fun _ _ => none⟩ (-1)
            (Except.ok 0) 2).1.length)
      < ⟨1, by decide⟩ :=
  ⟨⟨by decide, by decide⟩,
    (run_segment_ordering ⟨fun _ _ => [0], fun _ _ => none⟩ (-1)
      (Except.ok 0) 2).2.2.1 0 0 ⟨0, by decide⟩ ⟨1, by decide⟩
      (by decide) (by decide)⟩

theorem segmentEnd_not_mem_map_record (n m : Int) (l : List Nat) :
    RunEvent.segmentEnd n ∉ l.map (RunEvent.record m) := by
  intro h
  rcases List.mem_map.mp h with ⟨p, _, he⟩
  cases he

theorem runLoop_maxstop (ws : WatchSpec) (ms ls : Int) :
    ∀ (fuel : Nat) (cur : Int), cur ≤ ms →
      (∀ s, cur ≤ s → s ≤ ms → ws.res s (decide (ls ≤ s)) = none) →
      (ms - cur).toNat < fuel →
      (runLoop ws ms ls fuel cur).2.1 = none
      ∧ (runLoop ws ms ls fuel cur).2.2 = ms
      ∧ RunEvent.segmentEnd ms ∉ (runLoop ws ms ls fuel cur).1
      ∧ ∀ n, cur ≤ n → n < ms →
          RunEvent.segmentEnd n ∈ (runLoop ws ms ls fuel cur).1 := by
  intro fuel
  induction fuel with
  | zero =>
    intro cur _ _ hfuel
    exact absurd hfuel (Nat.not_lt_zero _)
  | succ fuel ih =>
    intro cur hcur hok hfuel
    have hres : ws.res cur (decide (ls ≤ cur)) = none :=
      hok cur (le_refl cur) hcur
    by_cases hm : cur = ms
    · rw [hm] at hres ⊢
      rw [runLoop_step_stop ws ms ls fuel hres]
      refine ⟨rfl, rfl, ?_, ?_⟩
      · exact segmentEnd_not_mem_map_record ms ms _
      · intro n hn1 hn2
        omega
    · have hcur' : cur + 1 ≤ ms := by omega
      have hok' : ∀ s, cur + 1 ≤ s → s ≤ ms →
          ws.res s (decide (ls ≤ s)) = none :=
        fun s hs1 hs2 => hok s (by omega) hs2
      have hfuel' : (ms - (cur + 1)).toNat < fuel := by omega
      rcases ih (cur + 1) hcur' hok' hfuel' with ⟨h1, h2, h3, h4⟩
      rw [runLoop_step_cont ws ms ls fuel cur hres hm]
      refine ⟨h1, h2, ?_, ?_⟩
      · intro hmem
        rcases List.mem_append.mp hmem with h | h
        · exact segmentEnd_not_mem_map_record ms cur _ h
        · rcases List.mem_cons.mp h with he | h'
          · cases he
            exact hm rfl
          · exact h3 h'
      · intro n hn1 hn2
        by_cases hn : n = cur
        · subst hn
          exact List.mem_append.mpr (Or.inr (List.mem_cons_self _ _))
        · have : cur + 1 ≤ n := by omega
          exact List.mem_append.mpr
            (Or.inr (List.mem_cons.mpr (Or.inr (h4 n this hn2))))

/-- C10: when `MaxSegment` is non-negative and every `watch` up to and
including `watch(MaxSegment, ...)` returns without error, `run` returns
nil at the `currentSegment == MaxSegment` check: `SegmentEnd(MaxSegment)`
is never invoked, `currentSegment` ends exactly at `MaxSegment`, while
every lower segment from the starting one did get its `SegmentEnd`. -/
theorem run_maxSegment_stops (ws : WatchSpec) (maxSegment lastSegment : Int)
    (fuel : Nat) (_hms : 0 ≤ maxSegment) (hstart : lastSegment ≤ maxSegment)
    (hok : ∀ s : Int, lastSegment ≤ s → s ≤ maxSegment →
      ws.res s (decide (lastSegment ≤ s)) = none)
    (hfuel : (maxSegment - lastSegment).toNat < fuel) :
    (runW ws maxSegment (Except.ok lastSegment) fuel).2.1 = none
    ∧ (runW ws maxSegment (Except.ok lastSegment) fuel).2.2
        = some maxSegment
    ∧ RunEvent.segmentEnd maxSegment
        ∉ (runW ws maxSegment (Except.ok lastSegment) fuel).1
    ∧ ∀ n : Int, lastSegment ≤ n → n < maxSegment →
        RunEvent.segmentEnd n
          ∈ (runW ws maxSegment (Except.ok lastSegment) fuel).1 := by
  rcases runLoop_maxstop ws maxSegment lastSegment fuel lastSegment hstart
    hok hfuel with ⟨h1, h2, h3, h4⟩
  exact ⟨h1, by simp only [runW]; rw [h2], h3, h4⟩

theorem run_maxSegment_stops_witness :
    ((0 : Int) ≤ 2 ∧ (0 : Int) ≤ 2
      ∧ (∀ s : Int, 0 ≤ s → s ≤ 2 →
          (⟨fun _ _ => [0], fun _ _ => none⟩ : WatchSpec).res s
            (decide ((0 : Int) ≤ s)) = none)
      ∧ ((2 : Int) - 0).toNat < 5)
    ∧ ((runW ⟨fun _ _ => [0], fun _ _ => none⟩ 2 (Except.ok 0) 5).2.1 = none
      ∧ (runW ⟨fun _ _ => [0], fun _ _ => none⟩ 2 (Except.ok 0) 5).2.2
          = some 2
      ∧ RunEvent.segmentEnd 2
          ∉ (runW ⟨fun _ _ => [0], fun _ _ => none⟩ 2 (Except.ok 0) 5).1
      ∧ ∀ n : Int, 0 ≤ n → n < 2 →
          RunEvent.segmentEnd n
            ∈ (runW ⟨fun _ _ => [0], fun _ _ => none⟩ 2 (Except.ok 0) 5).1) :=
  ⟨⟨by decide, by decide, fun s _ _ => rfl, by decide⟩,
    run_maxSegment_stops ⟨fun _ _ => [0], fun _ _ => none⟩ 2 0 5
      (by decide) (by decide) (fun s _ _ => rfl) (by decide)⟩

end Wal
